import Mathlib

/-!
Verification of the command search and storage subsystem of the tldr-app
repository.  JS strings are modelled as lists of characters; the SQLite
database is modelled as an explicit record of table contents; fallible
engine statements are modelled by explicit outcome parameters ("flags" /
oracles) so that every control-flow branch of the source is represented.

Sources embedded here:
  - SQLiteCommandStorage (sanitizeFtsQuery, searchCommands,
    getRecentCommands, getCommandByName, saveCommand, rowToCommand)
  - DatabaseService (run, get, all, transaction, getFromCache)
  - MemoryCommandStorage (searchCommands, getRecentCommands,
    getCommandByName, saveCommand)
  - CommandService facade (init, searchCommands, getCommandByName,
    saveCommand, memorySearchCommands)
-/

set_option maxRecDepth 4000

namespace TldrSpec

/-- JS strings are modelled as lists of characters. -/
abbrev Str := List Char

/-- JS word character class as used in the regex character class backslash-w:
uppercase and lowercase ASCII letters, digits, underscore. -/
def isWordChar (c : Char) : Bool :=
  c.isAlpha || c.isDigit || c == '_'

/-- JS whitespace class (ASCII part of backslash-s, which is what the relevant
queries use): space, tab, newline, carriage return, vertical tab, form feed. -/
def isJsSpace (c : Char) : Bool :=
  c == ' ' || c == '\t' || c == '\n' || c == '\r' || c == '\x0b' || c == '\x0c'

/-- JS String.prototype.trim: drop whitespace from both ends. -/
def jsTrim (s : Str) : Str :=
  ((s.dropWhile isJsSpace).reverse.dropWhile isJsSpace).reverse

/-- Helper for collapsing runs of whitespace; the boolean records whether the
previous character was part of a whitespace run already emitted as a space. -/
def collapseSpacesAux : Bool → Str → Str
  | _, [] => []
  | prevSpace, c :: rest =>
    if isJsSpace c then
      if prevSpace then collapseSpacesAux true rest
      else ' ' :: collapseSpacesAux true rest
    else c :: collapseSpacesAux false rest

/-- JS replace of every maximal whitespace run by a single space
(the second replace in sanitizeFtsQuery). -/
def collapseSpaces (s : Str) : Str := collapseSpacesAux false s

/-- Characters kept by the first replace in sanitizeFtsQuery: word characters,
whitespace, the wildcard marker, double quote and hyphen.  Every other
character is replaced by a space (not removed). -/
def keptBySanitize (c : Char) : Bool :=
  isWordChar c || isJsSpace c || c == '*' || c == '"' || c == '-'

/-- SQLiteCommandStorage.sanitizeFtsQuery: on a falsy (empty) query return
the empty string; otherwise trim, replace every disallowed character by a
space, then collapse whitespace runs to single spaces. -/
def sanitizeFtsQuery (q : Str) : Str :=
  if q.isEmpty then []
  else collapseSpaces ((jsTrim q).map (fun c => if keptBySanitize c then c else ' '))

/-- JS toLowerCase on ASCII, applied characterwise. -/
def lowerStr (s : Str) : Str := s.map Char.toLower

/-- Helper for substring search: does the haystack start with the needle. -/
def startsWithL : Str → Str → Bool
  | [], _ => true
  | _ :: _, [] => false
  | a :: as, b :: bs => a == b && startsWithL as bs

/-- JS String.prototype.includes: the needle occurs as a contiguous substring
of the haystack. -/
def containsSub (needle : Str) : Str → Bool
  | [] => needle.isEmpty
  | c :: rest => startsWithL needle (c :: rest) || containsSub needle rest

/-- JS split on a single newline character, as used by rowToCommand on the
GROUP_CONCAT-joined examples column. -/
def splitNl : Str → List Str
  | [] => [[]]
  | c :: rest =>
    if c = '\n' then [] :: splitNl rest
    else
      match splitNl rest with
      | [] => [[c]]
      | g :: gs => (c :: g) :: gs

/-- SQLite GROUP_CONCAT with a newline separator over a nonempty row list
(the empty case is handled at the call site, where GROUP_CONCAT yields NULL). -/
def joinNl : List Str → Str
  | [] => []
  | [x] => x
  | x :: y :: ys => x ++ '\n' :: joinNl (y :: ys)

/-- JS truthiness of a string: nonempty. -/
def jsTruthyStr (s : Str) : Bool := !s.isEmpty

/-- JS truthiness of a possibly-absent string field: present and nonempty. -/
def jsTruthyOptStr : Option Str → Bool
  | none => false
  | some s => jsTruthyStr s

/-- Source tag of a command record (the union of the CommandSource enums of
the repository). -/
inductive CommandSource where
  | memory
  | sqlite
  | localDb
  | api
  | userDefined
deriving DecidableEq, Repr

/-- The Command value object exposed at every boundary of the repository
(services/types): id, name, standsFor, summary, description, category,
examples, content, source.  Absent optional strings are none; the category
field is a string whose JS-falsy value is the empty string. -/
structure Command where
  id : Option Nat := none
  name : Str
  standsFor : Option Str := none
  summary : Str := []
  description : Str := []
  category : Str := []
  examples : List Str := []
  content : Option Str := none
  source : CommandSource := CommandSource.memory
deriving DecidableEq, Repr

/-- Row of the categories table. -/
structure CategoryRow where
  id : Nat
  name : Str
deriving DecidableEq, Repr

/-- Row of the commands table. -/
structure CommandRow where
  id : Nat
  name : Str
  standsFor : Option Str
  summary : Str
  categoryId : Option Nat
deriving DecidableEq, Repr

/-- Row of the command_examples table. -/
structure ExampleRow where
  id : Nat
  commandId : Nat
  exampleText : Str
  sortOrder : Nat
deriving DecidableEq, Repr

/-- Row of the content_types table. -/
structure ContentTypeRow where
  id : Nat
  name : Str
deriving DecidableEq, Repr

/-- Row of the command_content table (the columns relevant to the claims). -/
structure ContentRow where
  commandId : Nat
  contentTypeId : Nat
  content : Str
deriving DecidableEq, Repr

/-- Row of the command_history table. -/
structure HistoryRow where
  id : Nat
  commandId : Option Nat
  rawInput : Str
  timestamp : Nat
deriving DecidableEq, Repr

/-- The SQLite database state: the table contents relevant to the claims.
Lists are kept in rowid (insertion) order.  The now field stands for
CURRENT_TIMESTAMP.  The content_types table is seeded by the schema. -/
structure DB where
  categories : List CategoryRow := []
  commands : List CommandRow := []
  examples : List ExampleRow := []
  contentTypes : List ContentTypeRow :=
    [⟨1, "tldr".toList⟩, ⟨2, "manpage".toList⟩, ⟨3, "chtsh".toList⟩, ⟨4, "explainshell".toList⟩]
  contents : List ContentRow := []
  history : List HistoryRow := []
  now : Nat := 0
deriving DecidableEq, Repr

/-- Fresh rowid for an insert: one more than the largest id in use. -/
def freshId (ids : List Nat) : Nat := ids.foldr max 0 + 1

/-- Fresh id for a categories insert. -/
def nextCategoryId (db : DB) : Nat := freshId (db.categories.map (·.id))

/-- Fresh id for a commands insert. -/
def nextCommandId (db : DB) : Nat := freshId (db.commands.map (·.id))

/-- Fresh id for a command_examples insert. -/
def nextExampleId (db : DB) : Nat := freshId (db.examples.map (·.id))

/-- Fresh id for a command_history insert. -/
def nextHistoryId (db : DB) : Nat := freshId (db.history.map (·.id))

/-- Row shape produced by the SELECT used in getCommandByName, searchCommands
and getRecentCommands: the command columns joined with the category name, the
newline-concatenated examples and the tldr content body. -/
structure CommandRowR where
  id : Nat
  name : Str
  stands_for : Option Str
  summary : Str
  category : Option Str
  examples : Option Str
  tldr_content : Option Str
deriving DecidableEq, Repr

/-- Scalar subquery: GROUP_CONCAT(example, newline) over the example rows of
a command, NULL (none) when the command has no example rows.  Rows are
concatenated in rowid order, which is insertion order. -/
def groupConcatExamples (db : DB) (cid : Nat) : Option Str :=
  match (db.examples.filter (fun e => e.commandId == cid)).map (·.exampleText) with
  | [] => none
  | xs => some (joinNl xs)

/-- Scalar subquery: the tldr-typed content body of a command, resolving the
content type id by name first (LIMIT 1 on both lookups). -/
def tldrContentFor (db : DB) (cid : Nat) : Option Str :=
  match db.contentTypes.find? (fun t => t.name == "tldr".toList) with
  | none => none
  | some t => (db.contents.find? (fun r => r.commandId == cid && r.contentTypeId == t.id)).map (·.content)

/-- LEFT JOIN categories: the category name of a command, none when the
command has no category or the id is dangling. -/
def categoryNameFor (db : DB) (cidOpt : Option Nat) : Option Str :=
  cidOpt.bind (fun i => (db.categories.find? (fun c => c.id == i)).map (·.name))

/-- Assemble the joined SELECT row for one commands-table row. -/
def rowOf (db : DB) (c : CommandRow) : CommandRowR :=
  { id := c.id
    name := c.name
    stands_for := c.standsFor
    summary := c.summary
    category := categoryNameFor db c.categoryId
    examples := groupConcatExamples db c.id
    tldr_content := tldrContentFor db c.id }

/-- The WHERE name = ? lookup of getCommandByName: first commands row with
exactly that name, joined into the SELECT row shape. -/
def lookupRow (db : DB) (name : Str) : Option CommandRowR :=
  (db.commands.find? (fun c => c.name == name)).map (rowOf db)

/-- SQLiteCommandStorage.rowToCommand: convert a database row to a Command.
The examples column is split on newlines when truthy (non-NULL and nonempty);
the category defaults to the empty string. -/
def rowToCommand (row : CommandRowR) : Command :=
  { id := some row.id
    name := row.name
    standsFor := row.stands_for
    summary := row.summary
    description := row.summary
    category := row.category.getD []
    examples :=
      match row.examples with
      | none => []
      | some s => if s.isEmpty then [] else splitNl s
    content := row.tldr_content
    source := CommandSource.sqlite }

/-- SQLiteCommandStorage.getCommandByName: null when the underlying get
statement fails or finds no row, otherwise the converted row.  The fail
parameter is the outcome of the underlying engine statement. -/
def getCommandByName (db : DB) (fail : Bool) (name : Str) : Option Command :=
  if fail then none
  else (lookupRow db name).map rowToCommand

/-- Outcomes of the individual engine statements executed by saveCommand.
Each field tells whether the corresponding statement reports an error
(DbResult.success = false).  The default is the all-success path. -/
structure SaveFlags where
  catGetFails : Bool := false
  catInsertFails : Bool := false
  lookupFails : Bool := false
  updateFails : Bool := false
  insertFails : Bool := false
  exDeleteFails : Bool := false
  exInsertFails : Nat → Bool := fun _ => false
  ctGetFails : Bool := false
  contentUpsertFails : Bool := false
  historyInsertFails : Bool := false

/-- Step 1 of saveCommand: resolve or create the category.  A failed lookup
falls through to the insert; a category insert fails on an engine error or a
UNIQUE(name) violation, leaving the category id null. -/
def resolveCategory (db : DB) (f : SaveFlags) (cmd : Command) : Option Nat × DB :=
  if cmd.category.isEmpty then (none, db)
  else
    match (if f.catGetFails then none else db.categories.find? (fun c => c.name == cmd.category)) with
    | some c => (some c.id, db)
    | none =>
      if f.catInsertFails || db.categories.any (fun c => c.name == cmd.category) then (none, db)
      else
        let nid := nextCategoryId db
        (some nid, { db with categories := db.categories ++ [⟨nid, cmd.category⟩] })

/-- Effect of the UPDATE commands statement on one row: rows whose name
matches the WHERE clause receive the new summary, stands_for and category;
other rows are untouched. -/
def updRow (cmd : Command) (catId : Option Nat) (c : CommandRow) : CommandRow :=
  if c.name == cmd.name then
    { c with summary := cmd.summary, standsFor := cmd.standsFor, categoryId := catId }
  else c

/-- The UPDATE commands SET summary, stands_for, category_id WHERE name = ?
statement; its result is ignored by saveCommand, so a failure leaves the
table unchanged and execution continues. -/
def applyUpdate (db : DB) (f : SaveFlags) (cmd : Command) (catId : Option Nat) : DB :=
  if f.updateFails then db
  else { db with commands := db.commands.map (updRow cmd catId) }

/-- The example insert loop: one INSERT per example, sort_order incremented
on every iteration whether or not the insert succeeds; a failed insert is
ignored. -/
def insertExamplesFrom (f : SaveFlags) (cid : Nat) (i : Nat) : DB → List Str → DB
  | db, [] => db
  | db, x :: xs =>
    let db' :=
      if f.exInsertFails i then db
      else { db with examples := db.examples ++ [⟨nextExampleId db, cid, x, i⟩] }
    insertExamplesFrom f cid (i + 1) db' xs

/-- Step 4 of saveCommand: only when the command carries a nonempty example
list, delete the existing example rows of the command (result ignored), then
insert the new examples in order. -/
def saveExamples (db : DB) (f : SaveFlags) (cmd : Command) (cid : Nat) : DB :=
  if cmd.examples.isEmpty then db
  else
    let db' :=
      if f.exDeleteFails then db
      else { db with examples := db.examples.filter (fun e => !(e.commandId == cid)) }
    insertExamplesFrom f cid 0 db' cmd.examples

/-- Step 5 of saveCommand: only when the command carries truthy content,
resolve the tldr content-type id and INSERT OR REPLACE the content row keyed
by (command_id, content_type_id); all results are ignored. -/
def saveContent (db : DB) (f : SaveFlags) (cmd : Command) (cid : Nat) : DB :=
  if jsTruthyOptStr cmd.content then
    if f.ctGetFails then db
    else
      match db.contentTypes.find? (fun t => t.name == "tldr".toList) with
      | none => db
      | some t =>
        if f.contentUpsertFails then db
        else
          { db with
            contents :=
              db.contents.filter (fun r => !(r.commandId == cid && r.contentTypeId == t.id))
                ++ [⟨cid, t.id, cmd.content.getD []⟩] }
  else db

/-- Step 6 of saveCommand: append a history row with raw_input set to the
command name; the result is ignored. -/
def saveHistory (db : DB) (f : SaveFlags) (cmd : Command) (cid : Nat) : DB :=
  if f.historyInsertFails then db
  else { db with history := db.history ++ [⟨nextHistoryId db, some cid, cmd.name, db.now⟩] }

/-- The transaction callback of saveCommand.  The only throw site is the
failed INSERT INTO commands ("Failed to insert command"); a commands insert
fails on an engine error or a UNIQUE(name) violation.  Every other statement
failure is silently ignored by the source. -/
def saveCallback (db0 : DB) (f : SaveFlags) (cmd : Command) : Except String DB :=
  let step1 := resolveCategory db0 f cmd
  let catId := step1.1
  let db1 := step1.2
  match getCommandByName db1 f.lookupFails cmd.name with
  | some existing =>
    let commandId := existing.id.getD 0
    let db2 := applyUpdate db1 f cmd catId
    Except.ok (saveHistory (saveContent (saveExamples db2 f cmd commandId) f cmd commandId) f cmd commandId)
  | none =>
    if f.insertFails || db1.commands.any (fun c => c.name == cmd.name) then
      Except.error "Failed to insert command"
    else
      let nid := nextCommandId db1
      let db2 := { db1 with commands := db1.commands ++ [⟨nid, cmd.name, cmd.standsFor, cmd.summary, catId⟩] }
      Except.ok (saveHistory (saveContent (saveExamples db2 f cmd nid) f cmd nid) f cmd nid)

/-- The value DatabaseService.transaction resolves with. -/
structure DbResultU where
  success : Bool
  error : Option String := none
deriving DecidableEq, Repr

/-- What saveCommand actually returns to its caller: the transaction result
object on the normal path (the declared boolean is never produced there), or
the literal false from the catch branch, which is unreachable because
transaction never rejects. -/
inductive JsSaveRet where
  | result (r : DbResultU)
  | boolFalse
deriving DecidableEq, Repr

/-- JS truthiness of the saveCommand return value: an object is truthy, so
the caller observes true whenever the transaction result object is returned,
regardless of its success field. -/
def JsSaveRet.truthy : JsSaveRet → Bool
  | .result _ => true
  | .boolFalse => false

/-- SQLiteCommandStorage.saveCommand: run the callback inside
DatabaseService.transaction.  On a thrown step the transaction rolls back to
the starting state and resolves with success false; the catch in saveCommand
is unreachable, so the transaction result object itself is returned. -/
def saveCommand (db0 : DB) (f : SaveFlags) (cmd : Command) : JsSaveRet × DB :=
  match saveCallback db0 f cmd with
  | Except.ok db' => (JsSaveRet.result ⟨true, none⟩, db')
  | Except.error e => (JsSaveRet.result ⟨false, some e⟩, db0)

/-- The ORDER BY key of getRecentCommands: MAX(h.timestamp) over the history
rows of the command, NULL (none) when the command was never used. -/
def cmdMaxTs (db : DB) (cid : Nat) : Option Nat :=
  match (db.history.filter (fun h => h.commandId == some cid)).map (·.timestamp) with
  | [] => none
  | t :: ts => some (ts.foldr max t)

/-- Lexicographic comparison of names by character code, the order SQLite
uses for ORDER BY on TEXT columns. -/
def strLe : Str → Str → Bool
  | [], _ => true
  | _ :: _, [] => false
  | a :: as, b :: bs => if a = b then strLe as bs else decide (a < b)

/-- Totality of the name comparison, packaged as a definition so the order
instances below can stay with the definitions. -/
def strLe.total : ∀ x y : Str, strLe x y = true ∨ strLe y x = true
  | [], _ => Or.inl rfl
  | _ :: _, [] => Or.inr rfl
  | a :: as, b :: bs => by
    by_cases hab : a = b
    · subst hab
      simpa [strLe] using strLe.total as bs
    · rcases lt_trichotomy a b with h | h | h
      · exact Or.inl (by simp [strLe, hab, h])
      · exact absurd h hab
      · exact Or.inr (by simp [strLe, Ne.symm hab, h, not_lt_of_gt h])

/-- Transitivity of the name comparison, packaged as a definition so the
order instances below can stay with the definitions. -/
def strLe.trans : ∀ x y z : Str, strLe x y = true → strLe y z = true → strLe x z = true
  | [], _, _, _, _ => rfl
  | _ :: _, [], _, h, _ => by simp [strLe] at h
  | _ :: _, _ :: _, [], _, h => by simp [strLe] at h
  | a :: as, b :: bs, c :: cs, hab, hbc => by
    by_cases h1 : a = b <;> by_cases h2 : b = c
    · subst h1; subst h2
      simp only [strLe, if_pos rfl] at *
      exact strLe.trans as bs cs hab hbc
    · subst h1
      simpa [strLe, h2] using hbc
    · subst h2
      simpa [strLe, h1] using hab
    · simp only [strLe, if_neg h1, if_neg h2, decide_eq_true_eq] at hab hbc
      have hac : a < c := lt_trans hab hbc
      simp [strLe, ne_of_lt hac, hac]

/-- The ORDER BY MAX(h.timestamp) DESC, c.name ASC ordering: larger
timestamps first, SQL NULLs (never-used commands) last of all, the name as
ascending tiebreak. -/
def recentLeB (db : DB) (a b : CommandRow) : Bool :=
  match cmdMaxTs db a.id, cmdMaxTs db b.id with
  | some x, some y => decide (y < x) || (decide (x = y) && strLe a.name b.name)
  | some _, none => true
  | none, some _ => false
  | none, none => strLe a.name b.name

/-- The recency ordering as a decidable relation for the sort. -/
def recentLe (db : DB) (a b : CommandRow) : Prop := recentLeB db a b = true

instance (db : DB) : DecidableRel (recentLe db) :=
  fun a b => instDecidableEqBool (recentLeB db a b) true

instance (db : DB) : IsTotal CommandRow (recentLe db) where
  total a b := by
    unfold recentLe recentLeB
    rcases cmdMaxTs db a.id with _ | x <;> rcases cmdMaxTs db b.id with _ | y <;> simp
    · exact strLe.total a.name b.name
    · rcases lt_trichotomy x y with h | h | h
      · exact Or.inr (Or.inl h)
      · subst h
        rcases strLe.total a.name b.name with h | h
        · exact Or.inl (Or.inr ⟨rfl, h⟩)
        · exact Or.inr (Or.inr ⟨rfl, h⟩)
      · exact Or.inl (Or.inl h)

instance (db : DB) : IsTrans CommandRow (recentLe db) where
  trans a b c hab hbc := by
    unfold recentLe recentLeB at hab hbc ⊢
    rcases hA : cmdMaxTs db a.id with _ | x <;> rcases hB : cmdMaxTs db b.id with _ | y <;>
      rcases hC : cmdMaxTs db c.id with _ | z <;>
        simp only [hA, hB, hC, Bool.or_eq_true, Bool.and_eq_true, decide_eq_true_eq] at hab hbc ⊢ <;>
          try trivial
    · exact strLe.trans _ _ _ hab hbc
    · rcases hab with h | ⟨h, hn⟩ <;> rcases hbc with h' | ⟨h', hn'⟩
      · exact Or.inl (lt_trans h' h)
      · exact Or.inl (h' ▸ h)
      · exact Or.inl (h ▸ h')
      · exact Or.inr ⟨h ▸ h', strLe.trans _ _ _ hn hn'⟩

/-- The command rows produced by getRecentCommands, in result order: the
commands table sorted by the recency ordering, truncated by LIMIT. -/
def recentRows (db : DB) (limit : Nat) : List CommandRow :=
  (List.insertionSort (recentLe db) db.commands).take limit

/-- SQLiteCommandStorage.getRecentCommands: empty on an engine failure of the
underlying all statement, otherwise the joined rows converted to Commands. -/
def getRecentCommandsM (db : DB) (fail : Bool) (limit : Nat) : List Command :=
  if fail then []
  else (recentRows db limit).map (fun c => rowToCommand (rowOf db c))

/-- Outcomes of the engine statements used by searchCommands: the FTS MATCH
query result (none models a failed statement, some the returned row list),
and whether the recent-commands statement fails. -/
structure FtsOracle where
  fts : Str → Nat → Option (List CommandRowR)
  recentFails : Bool := false

/-- SQLiteCommandStorage.searchCommands: sanitize the query; when the
sanitized query is empty return the recent commands, otherwise issue the FTS
MATCH statement with the sanitized query and convert its rows, returning the
empty list when the statement fails. -/
def searchCommandsM (db : DB) (o : FtsOracle) (q : Str) (limit : Nat) : List Command :=
  let cleanQuery := sanitizeFtsQuery q
  if cleanQuery.isEmpty then getRecentCommandsM db o.recentFails limit
  else
    match o.fts cleanQuery limit with
    | none => []
    | some rows => rows.map rowToCommand

/-- Row of the api_cache table. -/
structure CacheRow where
  key : Str
  content : Str
  contentType : Str
  expiresAt : Nat
deriving DecidableEq, Repr

/-- DatabaseService.getFromCache: the first cache row with the given key
whose expiry lies strictly in the future; null when the underlying get
statement fails, no such row exists, or the row has expired. -/
def getFromCacheM (cache : List CacheRow) (now : Nat) (fail : Bool) (key : Str) : Option CacheRow :=
  if fail then none
  else cache.find? (fun r => r.key == key && decide (now < r.expiresAt))

/-- Payload of a successful run statement: this.changes and this.lastID. -/
structure RunData where
  changes : Nat
  lastID : Nat
deriving DecidableEq, Repr

/-- The DbResult value DatabaseService operations resolve with. -/
structure DbResultE (α : Type) where
  success : Bool
  data : Option α := none
  error : Option String := none
deriving DecidableEq, Repr

/-- DatabaseService.run.  The underlying engine callback outcome (error or
changes/lastID) is the input; the promise executor calls resolve on every
path, so the result is always an ok value and never a rejection. -/
def runM (conn : Bool) (engine : Except String RunData) : Except String (DbResultE RunData) :=
  if !conn then Except.ok ⟨false, none, some "Database not initialized"⟩
  else
    match engine with
    | Except.error e => Except.ok ⟨false, none, some e⟩
    | Except.ok d => Except.ok ⟨true, some d, none⟩

/-- DatabaseService.get, with the engine outcome (error, or the row found
which may be absent) as input; always resolves. -/
def getM (α : Type) (conn : Bool) (engine : Except String (Option α)) :
    Except String (DbResultE α) :=
  if !conn then Except.ok ⟨false, none, some "Database not initialized"⟩
  else
    match engine with
    | Except.error e => Except.ok ⟨false, none, some e⟩
    | Except.ok row => Except.ok ⟨true, row, none⟩

/-- DatabaseService.all, with the engine outcome (error or row list) as
input; always resolves. -/
def allM (α : Type) (conn : Bool) (engine : Except String (List α)) :
    Except String (DbResultE (List α)) :=
  if !conn then Except.ok ⟨false, none, some "Database not initialized"⟩
  else
    match engine with
    | Except.error e => Except.ok ⟨false, none, some e⟩
    | Except.ok rows => Except.ok ⟨true, some rows, none⟩

/-- DatabaseService.transaction: run BEGIN (result not inspected), then the
unit of work; on a thrown unit of work run ROLLBACK (result not inspected)
and resolve with the error materialized, otherwise run COMMIT (result not
inspected) and resolve successfully.  The begin, commit and rollback
parameters are the engine outcomes of the corresponding run statements. -/
def transactionM (conn : Bool) (beginOut commitOut rollbackOut : Except String RunData)
    (callback : Except String Unit) : Except String (DbResultE Unit) :=
  if !conn then Except.ok ⟨false, none, some "Database not initialized"⟩
  else
    let _beginRes := runM conn beginOut
    match callback with
    | Except.ok _ =>
      let _commitRes := runM conn commitOut
      Except.ok ⟨true, none, none⟩
    | Except.error e =>
      let _rollbackRes := runM conn rollbackOut
      Except.ok ⟨false, none, some e⟩

/-- MemoryCommandStorage.getRecentCommands: the first N commands in
insertion order. -/
def memGetRecent (commands : List Command) (limit : Nat) : List Command :=
  commands.take limit

/-- The per-command match predicate of MemoryCommandStorage.searchCommands:
case-insensitive substring match against name, summary, standsFor or any
example, with JS truthiness guards on the optional fields. -/
def memMatches (lq : Str) (c : Command) : Bool :=
  containsSub lq (lowerStr c.name) ||
  (jsTruthyStr c.summary && containsSub lq (lowerStr c.summary)) ||
  (match c.standsFor with
   | none => false
   | some s => jsTruthyStr s && containsSub lq (lowerStr s)) ||
  c.examples.any (fun ex => containsSub lq (lowerStr ex))

/-- MemoryCommandStorage.searchCommands: a blank query lists the recent
commands; otherwise filter by the case-insensitive match predicate and take
the first limit results. -/
def memSearchCommands (commands : List Command) (q : Str) (limit : Nat) : List Command :=
  if (jsTrim q).isEmpty then memGetRecent commands limit
  else (commands.filter (memMatches (lowerStr q))).take limit

/-- MemoryCommandStorage.getCommandByName: exact, case-sensitive name
equality. -/
def memGetCommandByName (commands : List Command) (name : Str) : Option Command :=
  commands.find? (fun c => c.name == name)

/-- JS Math.max over a spread array of naturals (0 for the empty array is
never used: the caller guards on a nonempty store). -/
def maxNat : List Nat → Nat
  | [] => 0
  | x :: xs => max x (maxNat xs)

/-- The fresh id assigned by MemoryCommandStorage.saveCommand on insert: one
more than the largest existing id (ids defaulting to 0), or 1 when the store
is empty. -/
def freshMemId (commands : List Command) : Nat :=
  if commands.isEmpty then 1
  else maxNat (commands.map (fun c => c.id.getD 0)) + 1

/-- MemoryCommandStorage.saveCommand: upsert by exact name.  An existing
record is replaced in place keeping its id; otherwise the command is appended
with a fresh id and the memory source tag. -/
def memSaveCommand (commands : List Command) (cmd : Command) : List Command :=
  match commands.findIdx? (fun c => c.name == cmd.name) with
  | some i => commands.set i { cmd with id := (commands.get? i).bind (·.id) }
  | none =>
    commands ++ [{ cmd with id := some (freshMemId commands), source := CommandSource.memory }]

/-- Legacy command record of the static seed list (commandData). -/
structure LegacyCommand where
  name : Str
  standsFor : Str
  description : Str
  examples : List Str
  category : Str
deriving DecidableEq, Repr

/-- CommandService adaptLegacyCommand: convert a legacy record to the
Command shape, using the description as summary. -/
def adaptLegacyCommand (c : LegacyCommand) : Command :=
  { name := c.name
    standsFor := some c.standsFor
    summary := c.description
    description := c.description
    examples := c.examples
    category := c.category
    source := CommandSource.localDb }

/-- CommandService.memorySearchCommands (the facade's own fallback): filter
the static seed list by case-insensitive substring match on name or
description, take the first limit records, adapt them. -/
def memorySearchCommandsCS (data : List LegacyCommand) (q : Str) (limit : Nat) : List Command :=
  ((data.filter (fun c =>
    containsSub (lowerStr q) (lowerStr c.name) ||
    (jsTruthyStr c.description && containsSub (lowerStr q) (lowerStr c.description)))).take limit).map
    adaptLegacyCommand

/-- CommandService.memoryGetCommandByName: exact name lookup in the static
seed list. -/
def memoryGetCommandByNameCS (data : List LegacyCommand) (name : Str) : Option Command :=
  (data.find? (fun c => c.name == name)).map adaptLegacyCommand

/-- Facade state of the CommandService singleton. -/
structure CSState where
  inited : Bool := false
  useMemoryFallback : Bool := false
deriving DecidableEq, Repr

/-- CommandService.init in the host-process role (window undefined): a
throwing storage initialization is caught and permanently marks the memory
fallback, still reporting success; otherwise only the inited flag is set and
the storage result is reported. -/
def initHost (storageThrows : Bool) (storageOk : Bool) (s : CSState) : CSState × Bool :=
  if storageThrows then ({ inited := true, useMemoryFallback := true }, true)
  else ({ s with inited := true }, storageOk)

/-- The facade operations that can run after initialization, with the
environment outcomes an init attempt would see. -/
inductive HostOp where
  | opInit (storageThrows storageOk : Bool)
  | opSearch
  | opGetByName
  | opSave
deriving DecidableEq, Repr

/-- Effect of one facade operation on the facade state: a direct init call
always runs init; the other operations only init when not yet initialized
(ensureInitialized) and never write the state otherwise. -/
def hostStep (op : HostOp) (s : CSState) : CSState :=
  match op with
  | HostOp.opInit t ok => (initHost t ok s).1
  | _ => s

/-- Which backend a facade call is served from. -/
inductive Backend where
  | durable
  | memoryB
deriving DecidableEq, Repr

/-- Backend selected by CommandService.searchCommands in the host-process
role: a blank query is answered by getRecentCommands, which is implemented on
the in-memory seed list; otherwise the durable storage service is used unless
the memory fallback is marked. -/
def searchBackend (s : CSState) (q : Str) : Backend :=
  if (jsTrim q).isEmpty then Backend.memoryB
  else if !s.useMemoryFallback then Backend.durable
  else Backend.memoryB

/-- Backend selected by CommandService.getCommandByName in the host-process
role. -/
def getByNameBackend (s : CSState) : Backend :=
  if !s.useMemoryFallback then Backend.durable else Backend.memoryB

/-- Backend selected by CommandService.saveCommand in the host-process role:
with the fallback marked the save is answered from memory (a log and a true)
without touching storage. -/
def saveBackend (s : CSState) : Backend :=
  if s.useMemoryFallback then Backend.memoryB else Backend.durable

/-- CommandService.searchCommands in the host-process role.  The durable
parameter is the storage service result for the query; it is consulted only
when the durable backend is selected. -/
def hostSearch (data : List LegacyCommand) (s : CSState)
    (durable : Str → Nat → List Command) (q : Str) (limit : Nat) : List Command :=
  if (jsTrim q).isEmpty then memorySearchCommandsCS data [] limit
  else if !s.useMemoryFallback then durable q limit
  else memorySearchCommandsCS data q limit

/-- CommandService.getCommandByName in the host-process role. -/
def hostGetByName (data : List LegacyCommand) (s : CSState)
    (durable : Str → Option Command) (n : Str) : Option Command :=
  if !s.useMemoryFallback then durable n
  else memoryGetCommandByNameCS data n

/-- The all-success statement outcome, used to reason about the write path
when the engine reports no errors. -/
def okFlags : SaveFlags := {}

/-- A database in its schema-bootstrap state: empty tables, seeded content
types. -/
def emptyDb : DB := {}

/-- Sample command used by concrete evaluations: first save of ls. -/
def cmdLsA : Command :=
  { name := "ls".toList, summary := "list one".toList, examples := ["ls -la".toList] }

/-- Sample command: second save of ls with a different summary and a second
example. -/
def cmdLsB : Command :=
  { name := "ls".toList, summary := "list two".toList
    examples := ["ls -la".toList, "ls -h".toList] }

/-- Sample command: second save of ls carrying no examples at all. -/
def cmdLsNoEx : Command :=
  { name := "ls".toList, summary := "list two".toList, examples := [] }

/-- Sample command whose single example contains an embedded newline. -/
def cmdNl : Command :=
  { name := "ls".toList, summary := "s".toList, examples := ["a\nb".toList]
    content := some "body".toList }

/-- Sample command with well-formed examples and content for the round-trip
witness. -/
def cmdTar : Command :=
  { name := "tar".toList, summary := "archive tool".toList
    examples := ["tar -xf file".toList, "tar -cf file".toList]
    content := some "tar page".toList }

/-- Statement outcomes where the insert of the second example row fails and
everything else succeeds. -/
def c1Flags : SaveFlags := { exInsertFails := fun i => i == 1 }

/-- Sample database holding one command, for the search counterexample. -/
def gitDb : DB :=
  { commands := [⟨1, "git".toList, none, "version control".toList, none⟩] }

/-- Engine oracle whose MATCH statement always fails. -/
def failOracle : FtsOracle := { fts := fun _ _ => none }

/-- Sample in-memory store holding one command named git with id 1. -/
def memStore : List Command :=
  [{ id := some 1, name := "git".toList, summary := "version control".toList }]

/-- Sample command whose name differs from the stored git only in case. -/
def cmdGitUpper : Command :=
  { name := "GIT".toList, summary := "upper git".toList }

/-- Sample cache row expiring at time 5. -/
def cacheRowK : CacheRow :=
  { key := "k".toList, content := "v".toList, contentType := "json".toList, expiresAt := 5 }

theorem jsTrim_of_allSpace {q : Str} (h : ∀ c ∈ q, isJsSpace c = true) : jsTrim q = [] := by
  have h1 : q.dropWhile isJsSpace = [] := List.dropWhile_eq_nil_iff.mpr h
  unfold jsTrim
  rw [h1]
  rfl

theorem sanitize_of_allSpace {q : Str} (h : ∀ c ∈ q, isJsSpace c = true) :
    sanitizeFtsQuery q = [] := by
  unfold sanitizeFtsQuery
  split
  · rfl
  · rw [jsTrim_of_allSpace h]
    rfl

theorem splitNl_ne_nil (s : Str) : splitNl s ≠ [] := by
  induction s with
  | nil => simp [splitNl]
  | cons c rest ih =>
    unfold splitNl
    by_cases hc : c = '\n'
    · simp [hc]
    · simp only [if_neg hc]
      cases h : splitNl rest <;> simp

theorem splitNl_of_no_newline : ∀ {s : Str}, '\n' ∉ s → splitNl s = [s] := by
  intro s
  induction s with
  | nil => intro _; rfl
  | cons c rest ih =>
    intro h
    have hc : c ≠ '\n' := fun hh => h (hh ▸ List.mem_cons_self c rest)
    have hr : '\n' ∉ rest := fun hh => h (List.mem_cons_of_mem c hh)
    unfold splitNl
    rw [if_neg hc, ih hr]

theorem splitNl_cons_newline (t : Str) : splitNl ('\n' :: t) = [] :: splitNl t := by
  conv_lhs => rw [splitNl]
  rw [if_pos rfl]

theorem splitNl_cons_other (c : Char) (t : Str) (hc : c ≠ '\n') :
    splitNl (c :: t) =
      match splitNl t with
      | [] => [[c]]
      | g :: gs => (c :: g) :: gs := by
  conv_lhs => rw [splitNl]
  rw [if_neg hc]

theorem splitNl_append_newline : ∀ {x t : Str}, '\n' ∉ x →
    splitNl (x ++ '\n' :: t) = x :: splitNl t := by
  intro x
  induction x with
  | nil =>
    intro t _
    exact splitNl_cons_newline t
  | cons c x' ih =>
    intro t h
    have hc : c ≠ '\n' := fun hh => h (hh ▸ List.mem_cons_self c x')
    have hx : '\n' ∉ x' := fun hh => h (List.mem_cons_of_mem c hh)
    show splitNl (c :: (x' ++ '\n' :: t)) = (c :: x') :: splitNl t
    rw [splitNl_cons_other c _ hc, ih hx]

theorem splitNl_joinNl : ∀ (xs : List Str), xs ≠ [] → (∀ x ∈ xs, '\n' ∉ x) →
    splitNl (joinNl xs) = xs
  | [], h, _ => absurd rfl h
  | [x], _, hmem => by
    show splitNl (joinNl [x]) = [x]
    unfold joinNl
    exact splitNl_of_no_newline (hmem x (List.mem_singleton.mpr rfl))
  | x :: y :: ys, _, hmem => by
    show splitNl (x ++ '\n' :: joinNl (y :: ys)) = x :: (y :: ys)
    rw [splitNl_append_newline (hmem x (List.mem_cons_self x _))]
    rw [splitNl_joinNl (y :: ys) (by simp) (fun z hz => hmem z (List.mem_cons_of_mem x hz))]

theorem joinNl_ne_nil : ∀ (xs : List Str), xs ≠ [] → (∀ x ∈ xs, x ≠ []) → joinNl xs ≠ []
  | [], h, _ => absurd rfl h
  | [x], _, hmem => by
    show x ≠ []
    exact hmem x (List.mem_singleton.mpr rfl)
  | x :: y :: ys, _, _ => by
    show x ++ '\n' :: joinNl (y :: ys) ≠ []
    cases x <;> simp

theorem startsWithL_refl : ∀ s : Str, startsWithL s s = true
  | [] => rfl
  | c :: rest => by simp [startsWithL, startsWithL_refl rest]

theorem containsSub_self (s : Str) : containsSub s s = true := by
  cases s with
  | nil => rfl
  | cons c rest => simp [containsSub, startsWithL_refl]

theorem le_maxNat : ∀ (xs : List Nat), ∀ x ∈ xs, x ≤ maxNat xs
  | [], _, hx => absurd hx (List.not_mem_nil _)
  | y :: ys, x, hx => by
    rcases List.mem_cons.mp hx with h | h
    · exact h ▸ le_max_left _ _
    · exact le_trans (le_maxNat ys x h) (le_max_right _ _)

theorem filter_eq_singleton_of_nodup {α β : Type _} [BEq β] [LawfulBEq β] (key : α → β) (n : β) :
    ∀ (l : List α), ((l.map key).Nodup) → ∀ {c : α},
      l.find? (fun x => key x == n) = some c → l.filter (fun x => key x == n) = [c]
  | [], _, _, h => by simp at h
  | a :: l, hnod, c, h => by
    rw [List.find?_cons] at h
    rw [List.filter_cons]
    have hnod' := hnod
    rw [List.map_cons, List.nodup_cons] at hnod'
    cases ha : key a == n with
    | true =>
      rw [ha] at h
      injection h with h
      subst h
      rw [if_pos rfl]
      have hk : key a = n := by simpa using ha
      have hnil : l.filter (fun x => key x == n) = [] := by
        rw [List.filter_eq_nil_iff]
        intro b hb hbn
        exact hnod'.1 (hk ▸ (by simpa using hbn) ▸ List.mem_map_of_mem key hb)
      rw [hnil]
    | false =>
      rw [ha] at h
      rw [if_neg (by simp)]
      exact filter_eq_singleton_of_nodup key n l hnod'.2 h

theorem find?_of_filter_singleton {α : Type _} (p : α → Bool) :
    ∀ (l : List α) (c : α), l.filter p = [c] → l.find? p = some c
  | [], c, h => by simp at h
  | a :: l, c, h => by
    rw [List.filter_cons] at h
    rw [List.find?_cons]
    cases ha : p a with
    | true =>
      rw [if_pos ha] at h
      injection h with h1 h2
      subst h1
      rfl
    | false =>
      rw [if_neg (by simp [ha])] at h
      exact find?_of_filter_singleton p l c h

theorem filter_filterNot_append {α : Type _} (p : α → Bool) (l rows : List α)
    (hrows : ∀ x ∈ rows, p x = true) :
    (l.filter (fun x => !p x) ++ rows).filter p = rows := by
  rw [List.filter_append]
  have h1 : (l.filter (fun x => !p x)).filter p = [] := by
    rw [List.filter_eq_nil_iff]
    intro a ha hpa
    have := List.of_mem_filter ha
    simp [hpa] at this
  rw [h1, List.filter_eq_self.mpr hrows]
  rfl

theorem find?_allNot_append {α : Type _} (p : α → Bool) (a : α) (h : p a = true) :
    ∀ (pre : List α), (∀ x ∈ pre, p x = false) → (pre ++ [a]).find? p = some a
  | [], _ => by
    rw [List.nil_append]
    exact List.find?_cons_of_pos [] h
  | b :: bs, hpre => by
    have hb : ¬ p b := by simp [hpre b (List.mem_cons_self b bs)]
    rw [List.cons_append, List.find?_cons_of_neg (bs ++ [a]) hb]
    exact find?_allNot_append p a h bs (fun x hx => hpre x (List.mem_cons_of_mem b hx))

theorem find?_filterNot_append {α : Type _} (p : α → Bool) (l : List α) (a : α)
    (h : p a = true) : (l.filter (fun x => !p x) ++ [a]).find? p = some a := by
  apply find?_allNot_append p a h
  intro x hx
  have := List.of_mem_filter hx
  simpa using this

theorem enumFrom_map_snd : ∀ (l : List Str) (i : Nat), (l.enumFrom i).map Prod.snd = l
  | [], _ => rfl
  | x :: xs, i => by
    show (x :: (xs.enumFrom (i + 1)).map Prod.snd : List Str) = x :: xs
    rw [enumFrom_map_snd xs (i + 1)]

theorem updRow_name (cmd : Command) (catId : Option Nat) (c : CommandRow) :
    (updRow cmd catId c).name = c.name := by
  unfold updRow
  split <;> rfl

theorem map_name_updRow (cmd : Command) (catId : Option Nat) (l : List CommandRow) :
    (l.map (updRow cmd catId)).map (·.name) = l.map (·.name) := by
  rw [List.map_map]
  exact List.map_congr_left (fun c _ => updRow_name cmd catId c)

theorem resolveCategory_fields (db : DB) (f : SaveFlags) (cmd : Command) :
    ((resolveCategory db f cmd).2).commands = db.commands ∧
    ((resolveCategory db f cmd).2).examples = db.examples ∧
    ((resolveCategory db f cmd).2).contents = db.contents ∧
    ((resolveCategory db f cmd).2).contentTypes = db.contentTypes ∧
    ((resolveCategory db f cmd).2).history = db.history := by
  unfold resolveCategory
  (repeat' split) <;> simp

theorem insertExamplesFrom_ok (cid : Nat) :
    ∀ (xs : List Str) (db : DB) (i : Nat),
      ∃ rows : List ExampleRow,
        insertExamplesFrom okFlags cid i db xs = { db with examples := db.examples ++ rows } ∧
        (∀ e ∈ rows, e.commandId = cid) ∧
        rows.map (fun e => (e.sortOrder, e.exampleText)) = xs.enumFrom i
  | [], db, i => ⟨[], by simp [insertExamplesFrom], by simp, by simp⟩
  | x :: xs, db, i => by
    obtain ⟨rows, h1, h2, h3⟩ :=
      insertExamplesFrom_ok cid xs
        { db with examples := db.examples ++ [⟨nextExampleId db, cid, x, i⟩] } (i + 1)
    refine ⟨⟨nextExampleId db, cid, x, i⟩ :: rows, ?_, ?_, ?_⟩
    · show insertExamplesFrom okFlags cid i db (x :: xs) = _
      unfold insertExamplesFrom
      have hf : okFlags.exInsertFails i = false := rfl
      rw [hf]
      simp only [Bool.false_eq_true, if_false]
      rw [h1]
      simp [List.append_assoc]
    · intro e he
      rcases List.mem_cons.mp he with h | h
      · rw [h]
      · exact h2 e h
    · show ((⟨nextExampleId db, cid, x, i⟩ : ExampleRow) :: rows).map
          (fun e => (e.sortOrder, e.exampleText)) = (i, x) :: xs.enumFrom (i + 1)
      rw [List.map_cons, h3]

theorem insertExamplesFrom_fields (f : SaveFlags) (cid : Nat) :
    ∀ (xs : List Str) (db : DB) (i : Nat),
      (insertExamplesFrom f cid i db xs).commands = db.commands ∧
      (insertExamplesFrom f cid i db xs).contents = db.contents ∧
      (insertExamplesFrom f cid i db xs).contentTypes = db.contentTypes ∧
      (insertExamplesFrom f cid i db xs).history = db.history
  | [], db, i => by simp [insertExamplesFrom]
  | x :: xs, db, i => by
    unfold insertExamplesFrom
    split <;> exact insertExamplesFrom_fields f cid xs _ (i + 1)

theorem saveExamples_fields (db : DB) (f : SaveFlags) (cmd : Command) (cid : Nat) :
    (saveExamples db f cmd cid).commands = db.commands ∧
    (saveExamples db f cmd cid).contents = db.contents ∧
    (saveExamples db f cmd cid).contentTypes = db.contentTypes ∧
    (saveExamples db f cmd cid).history = db.history := by
  unfold saveExamples
  split
  · simp
  · split <;> exact insertExamplesFrom_fields f cid cmd.examples _ 0

theorem saveExamples_ok (db : DB) (cmd : Command) (cid : Nat) (hne : cmd.examples ≠ []) :
    ∃ rows : List ExampleRow,
      saveExamples db okFlags cmd cid =
        { db with examples := db.examples.filter (fun e => !(e.commandId == cid)) ++ rows } ∧
      (∀ e ∈ rows, e.commandId = cid) ∧
      rows.map (fun e => (e.sortOrder, e.exampleText)) = cmd.examples.enum := by
  unfold saveExamples
  have hne' : cmd.examples.isEmpty = false := by
    rw [List.isEmpty_eq_false]
    exact hne
  rw [hne']
  simp only [Bool.false_eq_true, if_false]
  have hdel : okFlags.exDeleteFails = false := rfl
  rw [hdel]
  simp only [Bool.false_eq_true, if_false]
  obtain ⟨rows, h1, h2, h3⟩ :=
    insertExamplesFrom_ok cid cmd.examples
      { db with examples := db.examples.filter (fun e => !(e.commandId == cid)) } 0
  exact ⟨rows, h1, h2, h3⟩

theorem saveContent_fields (db : DB) (f : SaveFlags) (cmd : Command) (cid : Nat) :
    (saveContent db f cmd cid).commands = db.commands ∧
    (saveContent db f cmd cid).examples = db.examples ∧
    (saveContent db f cmd cid).contentTypes = db.contentTypes ∧
    (saveContent db f cmd cid).history = db.history := by
  unfold saveContent
  (repeat' split) <;> simp

theorem saveContent_ok (db : DB) (cmd : Command) (cid : Nat) (body : Str)
    (hc : cmd.content = some body) (hb : body ≠ []) (t : ContentTypeRow)
    (ht : db.contentTypes.find? (fun tt => tt.name == "tldr".toList) = some t) :
    saveContent db okFlags cmd cid =
      { db with contents :=
          db.contents.filter (fun r => !(r.commandId == cid && r.contentTypeId == t.id))
            ++ [⟨cid, t.id, body⟩] } := by
  unfold saveContent
  have htr : jsTruthyOptStr cmd.content = true := by
    rw [hc]
    show (!body.isEmpty) = true
    simp [List.isEmpty_eq_false.mpr hb]
  rw [htr]
  simp only [if_true]
  have hcg : okFlags.ctGetFails = false := rfl
  rw [hcg]
  simp only [Bool.false_eq_true, if_false]
  rw [ht]
  have hcu : okFlags.contentUpsertFails = false := rfl
  rw [hcu]
  simp only [Bool.false_eq_true, if_false]
  rw [hc]
  rfl

theorem saveHistory_fields (db : DB) (f : SaveFlags) (cmd : Command) (cid : Nat) :
    (saveHistory db f cmd cid).commands = db.commands ∧
    (saveHistory db f cmd cid).examples = db.examples ∧
    (saveHistory db f cmd cid).contents = db.contents ∧
    (saveHistory db f cmd cid).contentTypes = db.contentTypes := by
  unfold saveHistory
  split <;> simp

theorem pipelineTail_spec (db2 : DB) (cmd : Command) (cid : Nat) :
    (saveHistory (saveContent (saveExamples db2 okFlags cmd cid) okFlags cmd cid) okFlags cmd cid).commands
      = db2.commands ∧
    (saveHistory (saveContent (saveExamples db2 okFlags cmd cid) okFlags cmd cid) okFlags cmd cid).contentTypes
      = db2.contentTypes ∧
    (cmd.examples ≠ [] →
      ((saveHistory (saveContent (saveExamples db2 okFlags cmd cid) okFlags cmd cid) okFlags cmd cid).examples.filter
          (fun e => e.commandId == cid)).map (fun e => (e.sortOrder, e.exampleText))
        = cmd.examples.enum) ∧
    (∀ t, db2.contentTypes.find? (fun tt => tt.name == "tldr".toList) = some t →
      ∀ body, cmd.content = some body → body ≠ [] →
        tldrContentFor
          (saveHistory (saveContent (saveExamples db2 okFlags cmd cid) okFlags cmd cid) okFlags cmd cid) cid
          = some body) := by
  obtain ⟨he1, he2, he3, he4⟩ := saveExamples_fields db2 okFlags cmd cid
  obtain ⟨hc1, hc2, hc3, hc4⟩ := saveContent_fields (saveExamples db2 okFlags cmd cid) okFlags cmd cid
  obtain ⟨hh1, hh2, hh3, hh4⟩ :=
    saveHistory_fields (saveContent (saveExamples db2 okFlags cmd cid) okFlags cmd cid) okFlags cmd cid
  refine ⟨?_, ?_, ?_, ?_⟩
  · rw [hh1, hc1, he1]
  · rw [hh4, hc3, he3]
  · intro hne
    obtain ⟨rows, hr1, hr2, hr3⟩ := saveExamples_ok db2 cmd cid hne
    have hex : (saveHistory (saveContent (saveExamples db2 okFlags cmd cid) okFlags cmd cid) okFlags cmd cid).examples
        = db2.examples.filter (fun e => !(e.commandId == cid)) ++ rows := by
      rw [hh2, hc2, hr1]
    rw [hex, filter_filterNot_append (fun e => e.commandId == cid) db2.examples rows
      (fun e he => by simp [hr2 e he])]
    exact hr3
  · intro t ht body hcb hbne
    have ht3 : (saveExamples db2 okFlags cmd cid).contentTypes.find?
        (fun tt => tt.name == "tldr".toList) = some t := by
      rw [he3]
      exact ht
    have h4 := saveContent_ok (saveExamples db2 okFlags cmd cid) cmd cid body hcb hbne t ht3
    have hct5 : (saveHistory (saveContent (saveExamples db2 okFlags cmd cid) okFlags cmd cid) okFlags cmd cid).contentTypes
        = (saveExamples db2 okFlags cmd cid).contentTypes := by
      rw [hh4, hc3]
    have hstep : tldrContentFor
        (saveHistory (saveContent (saveExamples db2 okFlags cmd cid) okFlags cmd cid) okFlags cmd cid) cid
        = ((saveHistory (saveContent (saveExamples db2 okFlags cmd cid) okFlags cmd cid) okFlags cmd cid).contents.find?
            (fun r => r.commandId == cid && r.contentTypeId == t.id)).map (·.content) := by
      unfold tldrContentFor
      rw [hct5, ht3]
    have hco : (saveHistory (saveContent (saveExamples db2 okFlags cmd cid) okFlags cmd cid) okFlags cmd cid).contents
        = (saveExamples db2 okFlags cmd cid).contents.filter
            (fun r => !(r.commandId == cid && r.contentTypeId == t.id)) ++ [⟨cid, t.id, body⟩] := by
      rw [hh3, h4]
    rw [hstep, hco,
      find?_filterNot_append (fun r => r.commandId == cid && r.contentTypeId == t.id)
        (saveExamples db2 okFlags cmd cid).contents ⟨cid, t.id, body⟩ (by simp)]
    rfl

theorem saveCommand_ok_spec (db : DB) (cmd : Command)
    (hnod : (db.commands.map (·.name)).Nodup) :
    ∃ (cid : Nat) (catId : Option Nat) (db' : DB),
      saveCommand db okFlags cmd = (JsSaveRet.result ⟨true, none⟩, db') ∧
      ((db'.commands.map (·.name)).Nodup) ∧
      db'.commands.filter (fun c => c.name == cmd.name) =
        [⟨cid, cmd.name, cmd.standsFor, cmd.summary, catId⟩] ∧
      db'.contentTypes = db.contentTypes ∧
      (cmd.examples ≠ [] →
        (db'.examples.filter (fun e => e.commandId == cid)).map
          (fun e => (e.sortOrder, e.exampleText)) = cmd.examples.enum) ∧
      (∀ t, db.contentTypes.find? (fun tt => tt.name == "tldr".toList) = some t →
        ∀ body, cmd.content = some body → body ≠ [] → tldrContentFor db' cid = some body) := by
  obtain ⟨hr1, hr2, hr3, hr4, hr5⟩ := resolveCategory_fields db okFlags cmd
  cases hfind : ((resolveCategory db okFlags cmd).2).commands.find? (fun c => c.name == cmd.name) with
  | some c0 =>
    have hget : getCommandByName (resolveCategory db okFlags cmd).2 okFlags.lookupFails cmd.name
        = some (rowToCommand (rowOf (resolveCategory db okFlags cmd).2 c0)) := by
      unfold getCommandByName lookupRow
      rw [show okFlags.lookupFails = false from rfl]
      simp only [Bool.false_eq_true, if_false, hfind, Option.map_some']
    have hupd : applyUpdate (resolveCategory db okFlags cmd).2 okFlags cmd (resolveCategory db okFlags cmd).1
        = { (resolveCategory db okFlags cmd).2 with
            commands := ((resolveCategory db okFlags cmd).2).commands.map
              (updRow cmd (resolveCategory db okFlags cmd).1) } := by
      unfold applyUpdate
      rw [show okFlags.updateFails = false from rfl]
      simp only [Bool.false_eq_true, if_false]
    have hcb : saveCallback db okFlags cmd = Except.ok
        (saveHistory (saveContent (saveExamples
            (applyUpdate (resolveCategory db okFlags cmd).2 okFlags cmd (resolveCategory db okFlags cmd).1)
            okFlags cmd c0.id) okFlags cmd c0.id) okFlags cmd c0.id) := by
      simp only [saveCallback]
      rw [hget]
      rfl
    obtain ⟨hp1, hp2, hp3, hp4⟩ := pipelineTail_spec
      (applyUpdate (resolveCategory db okFlags cmd).2 okFlags cmd (resolveCategory db okFlags cmd).1)
      cmd c0.id
    have haucmds : (applyUpdate (resolveCategory db okFlags cmd).2 okFlags cmd (resolveCategory db okFlags cmd).1).commands
        = db.commands.map (updRow cmd (resolveCategory db okFlags cmd).1) := by
      rw [hupd]
      show ((resolveCategory db okFlags cmd).2).commands.map _ = _
      rw [hr1]
    have hauct : (applyUpdate (resolveCategory db okFlags cmd).2 okFlags cmd (resolveCategory db okFlags cmd).1).contentTypes
        = db.contentTypes := by
      rw [hupd]
      show ((resolveCategory db okFlags cmd).2).contentTypes = _
      rw [hr4]
    have hfind' : db.commands.find? (fun c => c.name == cmd.name) = some c0 := by
      rw [← hr1]
      exact hfind
    have hfilter : db.commands.filter (fun c => c.name == cmd.name) = [c0] :=
      filter_eq_singleton_of_nodup (·.name) cmd.name db.commands hnod hfind'
    have hbeq : (c0.name == cmd.name) = true := by
      have hm : c0 ∈ db.commands.filter (fun c => c.name == cmd.name) := by
        rw [hfilter]
        exact List.mem_singleton.mpr rfl
      simpa using (List.mem_filter.mp hm).2
    have hname : c0.name = cmd.name := by simpa using hbeq
    refine ⟨c0.id, (resolveCategory db okFlags cmd).1,
      saveHistory (saveContent (saveExamples
        (applyUpdate (resolveCategory db okFlags cmd).2 okFlags cmd (resolveCategory db okFlags cmd).1)
        okFlags cmd c0.id) okFlags cmd c0.id) okFlags cmd c0.id, ?_, ?_, ?_, ?_, ?_, ?_⟩
    · unfold saveCommand
      rw [hcb]
    · rw [hp1, haucmds, map_name_updRow]
      exact hnod
    · rw [hp1, haucmds, List.filter_map]
      have hcong : db.commands.filter
            ((fun c => c.name == cmd.name) ∘ updRow cmd (resolveCategory db okFlags cmd).1)
          = db.commands.filter (fun c => c.name == cmd.name) := by
        apply List.filter_congr
        intro x _
        show ((updRow cmd (resolveCategory db okFlags cmd).1 x).name == cmd.name) = (x.name == cmd.name)
        rw [updRow_name]
      rw [hcong, hfilter, List.map_singleton]
      unfold updRow
      rw [if_pos hbeq, hname]
    · rw [hp2, hauct]
    · intro hne
      exact hp3 hne
    · intro t ht body hcbody hbne
      refine hp4 t ?_ body hcbody hbne
      rw [hauct]
      exact ht
  | none =>
    have hget : getCommandByName (resolveCategory db okFlags cmd).2 okFlags.lookupFails cmd.name = none := by
      unfold getCommandByName lookupRow
      rw [show okFlags.lookupFails = false from rfl]
      simp only [Bool.false_eq_true, if_false, hfind, Option.map_none']
    have hfindN : db.commands.find? (fun c => c.name == cmd.name) = none := by
      rw [← hr1]
      exact hfind
    have hall : ∀ x ∈ db.commands, ¬ ((fun c => c.name == cmd.name) x = true) :=
      List.find?_eq_none.mp hfindN
    have hcond : (okFlags.insertFails
        || ((resolveCategory db okFlags cmd).2).commands.any (fun c => c.name == cmd.name)) = false := by
      rw [show okFlags.insertFails = false from rfl, hr1]
      simp only [Bool.false_or]
      rw [List.any_eq_false]
      exact hall
    have hcb : saveCallback db okFlags cmd = Except.ok
        (saveHistory (saveContent (saveExamples
            { (resolveCategory db okFlags cmd).2 with
              commands := ((resolveCategory db okFlags cmd).2).commands ++
                [⟨nextCommandId (resolveCategory db okFlags cmd).2, cmd.name, cmd.standsFor, cmd.summary,
                  (resolveCategory db okFlags cmd).1⟩] }
            okFlags cmd (nextCommandId (resolveCategory db okFlags cmd).2))
          okFlags cmd (nextCommandId (resolveCategory db okFlags cmd).2))
          okFlags cmd (nextCommandId (resolveCategory db okFlags cmd).2)) := by
      simp only [saveCallback]
      rw [hget, hcond]
      rfl
    obtain ⟨hp1, hp2, hp3, hp4⟩ := pipelineTail_spec
      { (resolveCategory db okFlags cmd).2 with
        commands := ((resolveCategory db okFlags cmd).2).commands ++
          [⟨nextCommandId (resolveCategory db okFlags cmd).2, cmd.name, cmd.standsFor, cmd.summary,
            (resolveCategory db okFlags cmd).1⟩] }
      cmd (nextCommandId (resolveCategory db okFlags cmd).2)
    have hnewcmds : ({ (resolveCategory db okFlags cmd).2 with
        commands := ((resolveCategory db okFlags cmd).2).commands ++
          [⟨nextCommandId (resolveCategory db okFlags cmd).2, cmd.name, cmd.standsFor, cmd.summary,
            (resolveCategory db okFlags cmd).1⟩] } : DB).commands
        = db.commands ++
          [⟨nextCommandId (resolveCategory db okFlags cmd).2, cmd.name, cmd.standsFor, cmd.summary,
            (resolveCategory db okFlags cmd).1⟩] := by
      show ((resolveCategory db okFlags cmd).2).commands ++ _ = _
      rw [hr1]
    refine ⟨nextCommandId (resolveCategory db okFlags cmd).2, (resolveCategory db okFlags cmd).1,
      saveHistory (saveContent (saveExamples
        { (resolveCategory db okFlags cmd).2 with
          commands := ((resolveCategory db okFlags cmd).2).commands ++
            [⟨nextCommandId (resolveCategory db okFlags cmd).2, cmd.name, cmd.standsFor, cmd.summary,
              (resolveCategory db okFlags cmd).1⟩] }
        okFlags cmd (nextCommandId (resolveCategory db okFlags cmd).2))
        okFlags cmd (nextCommandId (resolveCategory db okFlags cmd).2))
        okFlags cmd (nextCommandId (resolveCategory db okFlags cmd).2), ?_, ?_, ?_, ?_, ?_, ?_⟩
    · unfold saveCommand
      rw [hcb]
    · rw [hp1, hnewcmds, List.map_append]
      rw [List.nodup_append]
      refine ⟨hnod, by simp, ?_⟩
      intro x hx hx2
      simp only [List.map_cons, List.map_nil, List.mem_singleton] at hx2
      rcases List.mem_map.mp hx with ⟨c, hc, hcx⟩
      have := hall c hc
      simp only [beq_iff_eq] at this
      exact this (by rw [← hcx] at hx2; exact hx2)
    · rw [hp1, hnewcmds, List.filter_append]
      have h1 : db.commands.filter (fun c => c.name == cmd.name) = [] := by
        rw [List.filter_eq_nil_iff]
        exact hall
      rw [h1]
      simp
    · rw [hp2]
      show ((resolveCategory db okFlags cmd).2).contentTypes = _
      rw [hr4]
    · intro hne
      exact hp3 hne
    · intro t ht body hcbody hbne
      refine hp4 t ?_ body hcbody hbne
      show ((resolveCategory db okFlags cmd).2).contentTypes.find? _ = some t
      rw [hr4]
      exact ht

/-- C1: the claim states that every failing step inside the transactional
write path rolls the whole unit back and surfaces boolean false.  Evaluating
the embedded saveCommand at a save of ls with two examples where the insert
of the second example row fails shows the opposite: the transaction result
object reports success, its JS truthiness is true, the store keeps a partial
example set (only the first example), and the store differs from its initial
state — a committed partial write. -/
theorem C1_partial_write_is_committed :
    (saveCommand emptyDb c1Flags cmdLsB).1 = JsSaveRet.result ⟨true, none⟩ ∧
    ((saveCommand emptyDb c1Flags cmdLsB).1).truthy = true ∧
    ((saveCommand emptyDb c1Flags cmdLsB).2.examples.map (fun e => (e.sortOrder, e.exampleText)))
      = [(0, "ls -la".toList)] ∧
    (saveCommand emptyDb c1Flags cmdLsB).2 ≠ emptyDb := by
  decide

/-- C2 counterexample: saving ls with one example and then saving ls again
with an empty example list leaves the first save's example row in place (and
reports success), so the stored examples are not the second save's examples. -/
theorem C2_counterexample_empty_second_examples :
    ((saveCommand (saveCommand emptyDb okFlags cmdLsA).2 okFlags cmdLsNoEx).2.examples.map
      (fun e => (e.sortOrder, e.exampleText))) = [(0, "ls -la".toList)] ∧
    cmdLsNoEx.examples = [] ∧
    (saveCommand (saveCommand emptyDb okFlags cmdLsA).2 okFlags cmdLsNoEx).1
      = JsSaveRet.result ⟨true, none⟩ := by
  decide

/-- C2 (amended): for every command name n, saving two commands with name n
in sequence on an engine that reports no errors leaves exactly one commands
row with name n carrying the second save's summary, and — provided the second
save carries at least one example — the example rows stored for that command
are exactly the second save's examples in order with sort_order 0..n-1. -/
theorem C2_upsert_replaces_examples (db0 : DB) (n : Str) (cA cB : Command)
    (hnod : (db0.commands.map (·.name)).Nodup)
    (hA : cA.name = n) (hB : cB.name = n) (hBe : cB.examples ≠ []) :
    (((saveCommand (saveCommand db0 okFlags cA).2 okFlags cB).2.commands.filter
        (fun c => c.name == n)).map (·.summary) = [cB.summary]) ∧
    (∀ c ∈ (saveCommand (saveCommand db0 okFlags cA).2 okFlags cB).2.commands.filter
        (fun c => c.name == n),
      ((saveCommand (saveCommand db0 okFlags cA).2 okFlags cB).2.examples.filter
          (fun e => e.commandId == c.id)).map (fun e => (e.sortOrder, e.exampleText))
        = cB.examples.enum) := by
  obtain ⟨cid1, cat1, db1, heq1, hnod1, hfil1, hct1, hex1, hcont1⟩ := saveCommand_ok_spec db0 cA hnod
  have hdb1 : (saveCommand db0 okFlags cA).2 = db1 := by rw [heq1]
  obtain ⟨cid2, cat2, db2, heq2, hnod2, hfil2, hct2, hex2, hcont2⟩ := saveCommand_ok_spec db1 cB hnod1
  have hdb2 : (saveCommand (saveCommand db0 okFlags cA).2 okFlags cB).2 = db2 := by
    rw [hdb1, heq2]
  subst hB
  rw [hdb2]
  constructor
  · rw [hfil2]
    rfl
  · intro c hcm
    rw [hfil2] at hcm
    have hcc : c = ⟨cid2, cB.name, cB.standsFor, cB.summary, cat2⟩ := List.mem_singleton.mp hcm
    subst hcc
    exact hex2 hBe

/-- C2 witness: the amended claim instantiated at the empty database and two
concrete ls commands. -/
theorem C2_upsert_replaces_examples_witness :
    ((((emptyDb.commands.map (·.name)).Nodup) ∧ cmdLsA.name = "ls".toList ∧
      cmdLsB.name = "ls".toList ∧ cmdLsB.examples ≠ []) ∧
    ((((saveCommand (saveCommand emptyDb okFlags cmdLsA).2 okFlags cmdLsB).2.commands.filter
        (fun c => c.name == "ls".toList)).map (·.summary) = [cmdLsB.summary]) ∧
    (∀ c ∈ (saveCommand (saveCommand emptyDb okFlags cmdLsA).2 okFlags cmdLsB).2.commands.filter
        (fun c => c.name == "ls".toList),
      ((saveCommand (saveCommand emptyDb okFlags cmdLsA).2 okFlags cmdLsB).2.examples.filter
          (fun e => e.commandId == c.id)).map (fun e => (e.sortOrder, e.exampleText))
        = cmdLsB.examples.enum))) :=
  ⟨⟨by decide, rfl, rfl, by decide⟩,
    C2_upsert_replaces_examples emptyDb ("ls".toList) cmdLsA cmdLsB (by decide) rfl rfl (by decide)⟩

/-- C3 counterexample: saving a command whose single example contains an
embedded newline and then looking it up returns the example split in two, not
the original list, because the examples column is a newline join that the
reader splits on newlines. -/
theorem C3_counterexample_newline_example :
    (getCommandByName (saveCommand emptyDb okFlags cmdNl).2 false ("ls".toList)).map
      (fun r => r.examples) = some ["a".toList, "b".toList] ∧
    cmdNl.examples = ["a\nb".toList] := by
  decide

/-- C3 (amended): for every command C whose example list is nonempty with
every example nonempty and newline-free, and whose content is present and
nonempty, a successful save through the write path followed by
getCommandByName(C.name) returns a record with identical name, summary,
examples in order, and content, on any store with unique command names and
the seeded tldr content type. -/
theorem C3_save_get_roundtrip (db0 : DB) (C : Command)
    (hnod : (db0.commands.map (·.name)).Nodup)
    (ht : ∃ t, db0.contentTypes.find? (fun tt => tt.name == "tldr".toList) = some t)
    (hex : C.examples ≠ []) (hexs : ∀ e ∈ C.examples, e ≠ [] ∧ ¬ '\n' ∈ e)
    (hbody : ∃ body, C.content = some body ∧ body ≠ []) :
    (getCommandByName (saveCommand db0 okFlags C).2 false C.name).map
      (fun r => (r.name, r.summary, r.examples, r.content))
      = some (C.name, C.summary, C.examples, C.content) := by
  obtain ⟨t, htt⟩ := ht
  obtain ⟨body, hcb, hbne⟩ := hbody
  obtain ⟨cid, catId, db', heq, hnod', hfil, hct, hexe, hcont⟩ := saveCommand_ok_spec db0 C hnod
  have hdb' : (saveCommand db0 okFlags C).2 = db' := by rw [heq]
  have hfind : db'.commands.find? (fun c => c.name == C.name)
      = some ⟨cid, C.name, C.standsFor, C.summary, catId⟩ :=
    find?_of_filter_singleton _ db'.commands _ hfil
  have hlr : lookupRow db' C.name
      = some (rowOf db' ⟨cid, C.name, C.standsFor, C.summary, catId⟩) := by
    unfold lookupRow
    rw [hfind]
    rfl
  have hmap : (db'.examples.filter (fun e => e.commandId == cid)).map (fun e => e.exampleText)
      = C.examples := by
    have h1 := congrArg (List.map Prod.snd) (hexe hex)
    rw [List.map_map, List.enum_map_snd] at h1
    exact h1
  have hgc : groupConcatExamples db' cid = some (joinNl C.examples) := by
    unfold groupConcatExamples
    rw [hmap]
    cases hC : C.examples with
    | nil => exact absurd hC hex
    | cons a as => rfl
  rw [hdb']
  show ((lookupRow db' C.name).map rowToCommand).map
      (fun r => (r.name, r.summary, r.examples, r.content)) = _
  rw [hlr]
  simp only [Option.map_some', Option.some.injEq, Prod.mk.injEq]
  refine ⟨rfl, rfl, ?_, ?_⟩
  · show (match groupConcatExamples db' cid with
        | none => []
        | some s => if s.isEmpty then [] else splitNl s) = C.examples
    rw [hgc]
    have hnn : (joinNl C.examples).isEmpty = false :=
      List.isEmpty_eq_false.mpr (joinNl_ne_nil C.examples hex (fun e he => (hexs e he).1))
    simp only [hnn, Bool.false_eq_true, if_false]
    exact splitNl_joinNl C.examples hex (fun e he => (hexs e he).2)
  · show tldrContentFor db' cid = C.content
    rw [hcont t htt body hcb hbne, hcb]

/-- C3 witness: the amended round trip instantiated at the empty database and
a concrete tar command. -/
theorem C3_save_get_roundtrip_witness :
    (((emptyDb.commands.map (·.name)).Nodup) ∧
      (∃ t, emptyDb.contentTypes.find? (fun tt => tt.name == "tldr".toList) = some t) ∧
      cmdTar.examples ≠ [] ∧
      (∀ e ∈ cmdTar.examples, e ≠ [] ∧ ¬ '\n' ∈ e) ∧
      (∃ body, cmdTar.content = some body ∧ body ≠ [])) ∧
    (getCommandByName (saveCommand emptyDb okFlags cmdTar).2 false cmdTar.name).map
      (fun r => (r.name, r.summary, r.examples, r.content))
      = some (cmdTar.name, cmdTar.summary, cmdTar.examples, cmdTar.content) :=
  ⟨⟨by decide, ⟨⟨1, "tldr".toList⟩, by decide⟩, by decide, by decide, ⟨"tar page".toList, rfl, by decide⟩⟩,
    C3_save_get_roundtrip emptyDb cmdTar (by decide) ⟨⟨1, "tldr".toList⟩, by decide⟩
      (by decide) (by decide) ⟨"tar page".toList, rfl, by decide⟩⟩

/-- C4 counterexample: sanitizing a query of only disallowed characters does
not yield an empty effective query (each such character becomes a space and
the result is never re-trimmed), and searchCommands on such a query does not
return the recent-commands listing: at a store with one command and an engine
whose MATCH statement fails, search returns the empty list while the recent
listing returns the command. -/
theorem C4_counterexample_not_routed_to_recent :
    sanitizeFtsQuery ("@#$%".toList) ≠ [] ∧
    searchCommandsM gitDb failOracle ("@#$%".toList) 1 ≠ getRecentCommandsM gitDb false 1 := by
  decide

/-- C4 (amended): sanitizing a query containing only disallowed characters
yields the single-space string, which is nonempty, so searchCommands issues
the engine MATCH statement with that sanitized query instead of routing to
the recent listing; a failing MATCH statement is absorbed into an empty
result list rather than an exception. -/
theorem C4_disallowed_query_issues_match :
    sanitizeFtsQuery ("@#$%".toList) = [' '] ∧
    (∀ (db : DB) (o : FtsOracle) (limit : Nat),
      searchCommandsM db o ("@#$%".toList) limit =
        match o.fts [' '] limit with
        | none => []
        | some rows => rows.map rowToCommand) := by
  refine ⟨by decide, ?_⟩
  intro db o limit
  simp only [searchCommandsM]
  rw [show sanitizeFtsQuery ("@#$%".toList) = [' '] from by decide]
  rfl

/-- C5: for every whitespace-only (or empty) query and every limit, the
engine-backed searchCommands returns exactly getRecentCommands, and the
in-memory fallback store's searchCommands returns exactly its
getRecentCommands. -/
theorem C5_blank_query_equals_recent (q : Str) (h : ∀ c ∈ q, isJsSpace c = true)
    (db : DB) (o : FtsOracle) (limit : Nat) (st : List Command) :
    searchCommandsM db o q limit = getRecentCommandsM db o.recentFails limit ∧
    memSearchCommands st q limit = memGetRecent st limit := by
  constructor
  · simp only [searchCommandsM]
    rw [sanitize_of_allSpace h]
    rfl
  · unfold memSearchCommands
    rw [jsTrim_of_allSpace h]
    rfl

/-- C5 witness: the equivalence instantiated at a whitespace-only query, a
concrete store and limit 2. -/
theorem C5_blank_query_equals_recent_witness :
    (∀ c ∈ (" \t ".toList), isJsSpace c = true) ∧
    (searchCommandsM gitDb failOracle (" \t ".toList) 2
        = getRecentCommandsM gitDb failOracle.recentFails 2 ∧
      memSearchCommands memStore (" \t ".toList) 2 = memGetRecent memStore 2) :=
  ⟨by decide, C5_blank_query_equals_recent (" \t ".toList) (by decide) gitDb failOracle 2 memStore⟩

/-- C6: after an init attempt in which durable-store initialization throws,
the facade's memory-fallback mark is set and stays set across any sequence of
subsequent operations; in that state search, lookup and save are all served
from the in-memory side, and searchCommands returns the in-memory substring
match for every query, independent of the durable backend. -/
theorem C6_init_throw_permanent_fallback (s0 : CSState) (ops : List HostOp)
    (data : List LegacyCommand) (durS : Str → Nat → List Command)
    (durG : Str → Option Command) (q n : Str) (limit : Nat) :
    (ops.foldl (fun s op => hostStep op s) (hostStep (HostOp.opInit true true) s0)).useMemoryFallback
      = true ∧
    searchBackend (ops.foldl (fun s op => hostStep op s) (hostStep (HostOp.opInit true true) s0)) q
      = Backend.memoryB ∧
    getByNameBackend (ops.foldl (fun s op => hostStep op s) (hostStep (HostOp.opInit true true) s0))
      = Backend.memoryB ∧
    saveBackend (ops.foldl (fun s op => hostStep op s) (hostStep (HostOp.opInit true true) s0))
      = Backend.memoryB ∧
    hostSearch data (ops.foldl (fun s op => hostStep op s) (hostStep (HostOp.opInit true true) s0))
        durS q limit
      = (if (jsTrim q).isEmpty then memorySearchCommandsCS data [] limit
         else memorySearchCommandsCS data q limit) ∧
    hostGetByName data (ops.foldl (fun s op => hostStep op s) (hostStep (HostOp.opInit true true) s0))
        durG n
      = memoryGetCommandByNameCS data n := by
  have hinv : ∀ (l : List HostOp) (s : CSState), s.useMemoryFallback = true →
      (l.foldl (fun s op => hostStep op s) s).useMemoryFallback = true := by
    intro l
    induction l with
    | nil => exact fun s hs => hs
    | cons op rest ih =>
      intro s hs
      apply ih
      cases op with
      | opInit t ok =>
        cases t
        · exact hs
        · rfl
      | opSearch => exact hs
      | opGetByName => exact hs
      | opSave => exact hs
  have hfb := hinv ops (hostStep (HostOp.opInit true true) s0) rfl
  refine ⟨hfb, ?_, ?_, ?_, ?_, ?_⟩
  · unfold searchBackend
    rw [hfb]
    split <;> rfl
  · unfold getByNameBackend
    rw [hfb]
    rfl
  · unfold saveBackend
    rw [hfb]
    rfl
  · unfold hostSearch
    rw [hfb]
    split <;> rfl
  · unfold hostGetByName
    rw [hfb]
    rfl

/-- C7: for every database state and limit, the rows produced by
getRecentCommands are ordered by most-recent history timestamp descending,
every command without history comes after every command with history, and the
history-free commands are ordered by name; the operation's output is the
row-to-Command conversion of exactly these rows. -/
theorem C7_recent_ordering (db : DB) (limit : Nat) :
    getRecentCommandsM db false limit
      = (recentRows db limit).map (fun c => rowToCommand (rowOf db c)) ∧
    List.Pairwise (fun a b =>
      (cmdMaxTs db a.id = none → cmdMaxTs db b.id = none) ∧
      (∀ x y, cmdMaxTs db a.id = some x → cmdMaxTs db b.id = some y → y ≤ x) ∧
      (cmdMaxTs db a.id = none → cmdMaxTs db b.id = none → strLe a.name b.name = true))
      (recentRows db limit) := by
  constructor
  · rfl
  · have hsorted : List.Pairwise (recentLe db) (List.insertionSort (recentLe db) db.commands) :=
      List.sorted_insertionSort (recentLe db) db.commands
    have htake : List.Pairwise (recentLe db) (recentRows db limit) :=
      hsorted.sublist (List.take_sublist limit _)
    refine htake.imp ?_
    intro a b hab
    unfold recentLe recentLeB at hab
    rcases hA2 : cmdMaxTs db a.id with _ | x <;> rcases hB2 : cmdMaxTs db b.id with _ | y <;>
      rw [hA2, hB2] at hab
    · exact ⟨fun _ => rfl, fun x y hx _ => Option.noConfusion hx, fun _ _ => hab⟩
    · exact Bool.noConfusion hab
    · exact ⟨fun h => Option.noConfusion h, fun x' y' _ hy => Option.noConfusion hy,
        fun h _ => Option.noConfusion h⟩
    · refine ⟨fun h => Option.noConfusion h, ?_, fun h _ => Option.noConfusion h⟩
      intro x' y' hx hy
      injection hx with hx
      injection hy with hy
      subst hx
      subst hy
      have hab' : (decide (y < x) || (decide (x = y) && strLe a.name b.name)) = true := hab
      simp only [Bool.or_eq_true, Bool.and_eq_true, decide_eq_true_eq] at hab'
      rcases hab' with h | ⟨h, _⟩
      · exact le_of_lt h
      · exact le_of_eq h.symm

/-- C8: a cache row whose stored expiry is earlier than the current time is
invisible to getFromCache even before any sweep: the lookup returns null,
exactly as for an absent key. -/
theorem C8_expired_cache_is_null (cache : List CacheRow) (now : Nat) (key : Str)
    (h : ∀ r ∈ cache, r.key = key → r.expiresAt < now) :
    getFromCacheM cache now false key = none ∧ getFromCacheM [] now false key = none := by
  constructor
  · show cache.find? (fun r => r.key == key && decide (now < r.expiresAt)) = none
    rw [List.find?_eq_none]
    intro r hr
    simp only [Bool.and_eq_true, beq_iff_eq, decide_eq_true_eq, not_and]
    intro hk hlt
    exact absurd hlt (Nat.not_lt_of_gt (h r hr hk))
  · rfl

/-- C8 witness: the expired-row lookup instantiated at a concrete cache whose
single row for the key expired at time 5, queried at time 10. -/
theorem C8_expired_cache_is_null_witness :
    (∀ r ∈ [cacheRowK], r.key = "k".toList → r.expiresAt < 10) ∧
    (getFromCacheM [cacheRowK] 10 false ("k".toList) = none ∧
      getFromCacheM [] 10 false ("k".toList) = none) :=
  ⟨by decide, C8_expired_cache_is_null [cacheRowK] 10 ("k".toList) (by decide)⟩

/-- C9 counterexample: when the COMMIT statement itself reports an engine
error, the transaction still resolves with a success result carrying no
error, so the underlying SQL error is not materialized in the result value
observed by the caller. -/
theorem C9_counterexample_commit_error_swallowed :
    transactionM true (Except.ok ⟨0, 0⟩) (Except.error "commit failed") (Except.ok ⟨0, 0⟩)
      (Except.ok ()) = Except.ok ⟨true, none, none⟩ := rfl

/-- C9 (amended): run, get, all and transaction always resolve (their models
are total functions into ok results): run, get and all materialize every
underlying engine error and the missing-connection case as success=false
carrying the error, and transaction materializes a failing unit of work as
success=false carrying the thrown error — but the outcomes of its internal
BEGIN/COMMIT/ROLLBACK statements do not influence its result. -/
theorem C9_operations_resolve_and_materialize :
    (∀ e : String, runM true (Except.error e) = Except.ok ⟨false, none, some e⟩) ∧
    (∀ d : RunData, runM true (Except.ok d) = Except.ok ⟨true, some d, none⟩) ∧
    (∀ eng, runM false eng = Except.ok ⟨false, none, some "Database not initialized"⟩) ∧
    (∀ (α : Type) (e : String), getM α true (Except.error e) = Except.ok ⟨false, none, some e⟩) ∧
    (∀ (α : Type) (row : Option α), getM α true (Except.ok row) = Except.ok ⟨true, row, none⟩) ∧
    (∀ (α : Type) eng, getM α false eng = Except.ok ⟨false, none, some "Database not initialized"⟩) ∧
    (∀ (α : Type) (e : String), allM α true (Except.error e) = Except.ok ⟨false, none, some e⟩) ∧
    (∀ (α : Type) (rows : List α), allM α true (Except.ok rows) = Except.ok ⟨true, some rows, none⟩) ∧
    (∀ (α : Type) eng, allM α false eng = Except.ok ⟨false, none, some "Database not initialized"⟩) ∧
    (∀ b c r (e : String), transactionM true b c r (Except.error e)
      = Except.ok ⟨false, none, some e⟩) ∧
    (∀ b c r, transactionM true b c r (Except.ok ()) = Except.ok ⟨true, none, none⟩) ∧
    (∀ b c r cb, transactionM false b c r cb
      = Except.ok ⟨false, none, some "Database not initialized"⟩) := by
  refine ⟨?_, ?_, ?_, ?_, ?_, ?_, ?_, ?_, ?_, ?_, ?_, ?_⟩ <;> intros <;> rfl

/-- C10: in the in-memory fallback store, name comparison is case-sensitive
for lookup and save while search matching is case-insensitive: for a stored
command and a query name differing from it only in letter case (and not
itself stored), getCommandByName returns null, saveCommand appends a second
record under a fresh id instead of updating, the fresh id collides with no
stored id, search filters with the lowercased query, and the lowercased query
matches the stored command. -/
theorem C10_memory_case_sensitivity (st : List Command) (c : Command) (n2 : Str)
    (cmd2 : Command) (hc : c ∈ st) (_hneq : n2 ≠ c.name)
    (hlow : lowerStr n2 = lowerStr c.name) (habs : ∀ d ∈ st, d.name ≠ n2)
    (hname : cmd2.name = n2) (hnb : jsTrim n2 ≠ []) :
    memGetCommandByName st n2 = none ∧
    memSaveCommand st cmd2
      = st ++ [{ cmd2 with id := some (freshMemId st), source := CommandSource.memory }] ∧
    (∀ d ∈ st, d.id ≠ some (freshMemId st)) ∧
    (∀ limit, memSearchCommands st n2 limit = (st.filter (memMatches (lowerStr n2))).take limit) ∧
    memMatches (lowerStr n2) c = true := by
  have hnemp : st.isEmpty = false := by
    cases st
    · exact absurd hc (List.not_mem_nil c)
    · rfl
  have hfresh : freshMemId st = maxNat (st.map (fun x => x.id.getD 0)) + 1 := by
    unfold freshMemId
    rw [hnemp]
    rfl
  refine ⟨?_, ?_, ?_, ?_, ?_⟩
  · unfold memGetCommandByName
    rw [List.find?_eq_none]
    intro d hd
    simp [habs d hd]
  · unfold memSaveCommand
    have hidx : st.findIdx? (fun d => d.name == cmd2.name) = none := by
      rw [List.findIdx?_eq_none_iff]
      intro d hd
      simp [hname, habs d hd]
    rw [hidx]
  · intro d hd heq
    have hle : d.id.getD 0 ≤ maxNat (st.map (fun x => x.id.getD 0)) :=
      le_maxNat _ _ (List.mem_map_of_mem _ hd)
    rw [hfresh] at heq
    rw [heq] at hle
    simp at hle
  · intro limit
    unfold memSearchCommands
    rw [List.isEmpty_eq_false.mpr hnb]
    rfl
  · unfold memMatches
    rw [hlow]
    simp [containsSub_self]

/-- C10 witness: the case-sensitivity contrast instantiated at a store
holding git and the query name GIT. -/
theorem C10_memory_case_sensitivity_witness :
    (({ id := some 1, name := "git".toList, summary := "version control".toList } : Command) ∈ memStore ∧
      "GIT".toList ≠ ("git".toList : Str) ∧
      lowerStr ("GIT".toList)
        = lowerStr (({ id := some 1, name := "git".toList, summary := "version control".toList } : Command)).name ∧
      (∀ d ∈ memStore, d.name ≠ "GIT".toList) ∧
      cmdGitUpper.name = "GIT".toList ∧ jsTrim ("GIT".toList) ≠ []) ∧
    (memGetCommandByName memStore ("GIT".toList) = none ∧
      memSaveCommand memStore cmdGitUpper
        = memStore ++
            [{ cmdGitUpper with
                id := some (freshMemId memStore), source := CommandSource.memory }] ∧
      (∀ d ∈ memStore, d.id ≠ some (freshMemId memStore)) ∧
      (∀ limit, memSearchCommands memStore ("GIT".toList) limit
        = (memStore.filter (memMatches (lowerStr ("GIT".toList)))).take limit) ∧
      memMatches (lowerStr ("GIT".toList))
        ({ id := some 1, name := "git".toList, summary := "version control".toList } : Command) = true) :=
  ⟨⟨by decide, by decide, by decide, by decide, rfl, by decide⟩,
    C10_memory_case_sensitivity memStore
      { id := some 1, name := "git".toList, summary := "version control".toList }
      ("GIT".toList) cmdGitUpper (by decide) (by decide) (by decide) (by decide) rfl (by decide)⟩

end TldrSpec
